import Mathlib

/- Shallow embedding of the retrieval decision engine of the eino-rag
repository (intelligent_query_router.go, hybrid_retrieval.go,
graph_reterval.go): the query router and its rule-based analysis, the
round-robin merges of HybridSearch and executeCombinedSearch, the
graph-RAG search entry point, the keyword index rebuild, and the
vector-enhanced search loop.

Modelling conventions:
- Go float64 values are modelled as rationals; every comparison the code
  performs is between exact decimal constants and small fractions for
  which the rational and float64 orders agree.
- Go strings are modelled as Lean strings (character lists) where only
  substring containment matters, and as byte lists (List Nat) where the
  code indexes raw bytes (hashString, content prefixes).
- Go maps are modelled as association lists whose lookup returns the
  most recently stored binding; map iteration order is the list order.
- Go slices are modelled as lists; where the code distinguishes a nil
  slice from an empty one the slice is modelled as Option (List _) with
  none standing for nil.
- Fallible operations (Go panics: out-of-range index or slice) are
  modelled with Option results, none standing for the panic. -/

namespace EinoRag

/-- Values stored in a document metadata map. -/
inductive MetaVal where
  | vStr (s : String)
  | vFloat (q : ℚ)
  | vInt (n : Int)
  | vBool (b : Bool)
  deriving DecidableEq

/-- Document metadata, Go map modelled as an association list
(latest binding first). -/
abbrev Meta := List (String × MetaVal)

/-- Lookup in a metadata map. -/
def metaGet (m : Meta) (k : String) : Option MetaVal :=
  match m with
  | [] => none
  | (k2, v) :: rest => if k2 = k then some v else metaGet rest k

/-- Store a binding in a metadata map (Go map assignment). -/
def metaSet (m : Meta) (k : String) (v : MetaVal) : Meta :=
  (k, v) :: m

/-- schema.Document: identifier, content (raw bytes) and metadata. -/
structure Doc where
  id : String
  content : List Nat
  meta : Meta
  deriving DecidableEq

/-- Go fmt.Sprintf with the v verb, as used on metadata values
(the repository only stores string node ids). -/
def metaFmt : MetaVal → String
  | .vStr s => s
  | .vFloat q => toString q
  | .vInt n => toString n
  | .vBool b => toString b

/-- Whether sub occurs at the head of s. -/
def leadsWith : List Char → List Char → Bool
  | [], _ => true
  | _ :: _, [] => false
  | a :: as, b :: bs => a == b && leadsWith as bs

/-- Whether sub occurs anywhere in s. -/
def hasSubList (sub : List Char) : List Char → Bool
  | [] => sub.isEmpty
  | c :: rest => leadsWith sub (c :: rest) || hasSubList sub rest

/-- Go strings.Contains(s, sub). For valid UTF-8 data, byte-level
containment of an encoded string coincides with character-level
containment, so the character list model is faithful. -/
def goContains (s sub : String) : Bool :=
  hasSubList sub.data s.data

/-- Go unicode.IsSpace: the White_Space code points. -/
def goIsSpace (c : Char) : Bool :=
  let n := c.toNat
  n == 9 || n == 10 || n == 11 || n == 12 || n == 13 || n == 32 ||
  n == 0x85 || n == 0xA0 || n == 0x1680 ||
  (0x2000 ≤ n && n ≤ 0x200A) ||
  n == 0x2028 || n == 0x2029 || n == 0x202F || n == 0x205F || n == 0x3000

/-- Accumulating splitter behind goFields. -/
def goFieldsAux (cur : List Char) : List Char → List (List Char)
  | [] => if cur.isEmpty then [] else [cur.reverse]
  | c :: rest =>
    if goIsSpace c then
      if cur.isEmpty then goFieldsAux [] rest
      else cur.reverse :: goFieldsAux [] rest
    else goFieldsAux (c :: cur) rest

/-- Go strings.Fields: maximal runs of non-space characters. -/
def goFields (s : String) : List (List Char) :=
  goFieldsAux [] s.data

/-! Intelligent query router: strategies and rule-based analysis
(intelligent_query_router.go). -/

/-- SearchStrategy; the extra constructor models any other string value
of the underlying Go string type (RouteQuery has a default branch). -/
inductive SearchStrategy where
  | hybridTraditional
  | graphRAG
  | combined
  | other (s : String)
  deriving DecidableEq

/-- String value of a strategy, for metadata annotation. -/
def strategyStr : SearchStrategy → String
  | .hybridTraditional => "hybrid_traditional"
  | .graphRAG => "graph_rag"
  | .combined => "combined"
  | .other s => s

/-- QueryAnalysis result record. -/
structure QueryAnalysis where
  queryComplexity : ℚ
  relationshipIntensity : ℚ
  reasoningRequired : Bool
  entityCount : Nat
  recommendedStrategy : SearchStrategy
  confidence : ℚ
  reasoning : String
  deriving DecidableEq

/-- The fixed complexity keyword list of ruleBasedAnalysis. -/
def complexityKeywords : List String :=
  ["为什么", "如何", "关系", "影响", "原因", "比较", "区别", "分析", "推理"]

/-- The fixed relation keyword list of ruleBasedAnalysis. -/
def relationKeywords : List String :=
  ["配", "搭配", "组合", "相关", "联系", "连接", "适合", "匹配"]

/-- The counting loop of ruleBasedAnalysis: how many keywords of the
list occur in the query. -/
def countContained (query : String) (kws : List String) : Nat :=
  kws.foldl (fun acc kw => if goContains query kw then acc + 1 else acc) 0

/-- ruleBasedAnalysis (intelligent_query_router.go lines 132-191). -/
def ruleBasedAnalysis (query : String) : QueryAnalysis :=
  let complexityCount := countContained query complexityKeywords
  let complexity : ℚ := (complexityCount : ℚ) / (complexityKeywords.length : ℚ)
  let relationCount := countContained query relationKeywords
  let relationIntensity : ℚ := (relationCount : ℚ) / (relationKeywords.length : ℚ)
  let entityCount := (goFields query).length
  let reasoningRequired : Bool :=
    decide (complexity > (0.3 : ℚ)) || decide (relationIntensity > (0.3 : ℚ))
  if complexity > (0.5 : ℚ) ∨ relationIntensity > (0.5 : ℚ) then
    ⟨complexity, relationIntensity, reasoningRequired, entityCount,
      .graphRAG, (0.8 : ℚ), "查询涉及复杂关系或推理，适合使用图RAG检索"⟩
  else if complexity > (0.3 : ℚ) ∨ relationIntensity > (0.3 : ℚ) then
    ⟨complexity, relationIntensity, reasoningRequired, entityCount,
      .combined, (0.7 : ℚ), "查询具有中等复杂度，建议组合使用多种检索策略"⟩
  else
    ⟨complexity, relationIntensity, reasoningRequired, entityCount,
      .hybridTraditional, (0.6 : ℚ), "查询相对简单，使用传统混合检索即可满足需求"⟩

/-! Specification-side definitions for the analysis, written from the
spec sentences (spec.md section 4.6 step 1 and step 2), to be compared
with ruleBasedAnalysis. -/

/-- Modelled from the spec: complexity is the number of complexity-cue
keywords contained in the query divided by the size of the cue set. -/
def specComplexity (query : String) : ℚ :=
  ((complexityKeywords.countP (fun kw => goContains query kw) : ℚ)) /
    (complexityKeywords.length : ℚ)

/-- Modelled from the spec: relationship intensity over the relation
cue set. -/
def specRelationIntensity (query : String) : ℚ :=
  ((relationKeywords.countP (fun kw => goContains query kw) : ℚ)) /
    (relationKeywords.length : ℚ)

/-- Modelled from the spec: the strategy/confidence selection by the
two thresholds. -/
def specStrategyChoice (c r : ℚ) : SearchStrategy × ℚ :=
  if c > (0.5 : ℚ) ∨ r > (0.5 : ℚ) then (.graphRAG, (0.8 : ℚ))
  else if c > (0.3 : ℚ) ∨ r > (0.3 : ℚ) then (.combined, (0.7 : ℚ))
  else (.hybridTraditional, (0.6 : ℚ))

lemma countContained_go (query : String) (kws : List String) (acc : Nat) :
    kws.foldl (fun a kw => if goContains query kw then a + 1 else a) acc =
      acc + kws.countP (fun kw => goContains query kw) := by
  induction kws generalizing acc with
  | nil => simp
  | cons kw rest ih =>
    by_cases h : goContains query kw
    · simp [List.countP_cons, h, ih]
      omega
    · simp [List.countP_cons, h, ih]

lemma countContained_eq (query : String) (kws : List String) :
    countContained query kws = kws.countP (fun kw => goContains query kw) := by
  simpa using countContained_go query kws 0

/-- C6: for every query string, the rule-based analysis computes
complexity as keyword hits over the complexity cue set size, relation
intensity over the relation cue set, entity count as the number of
whitespace-separated tokens, reasoningRequired as
complexity > 0.3 or relationIntensity > 0.3, and selects graph-retrieval
with confidence 0.8 above the 0.5 threshold, combined with confidence
0.7 above the 0.3 threshold, else hybrid-retrieval with confidence 0.6. -/
theorem ruleBasedAnalysis_spec (query : String) :
    (ruleBasedAnalysis query).queryComplexity = specComplexity query ∧
    (ruleBasedAnalysis query).relationshipIntensity = specRelationIntensity query ∧
    (ruleBasedAnalysis query).entityCount = (goFields query).length ∧
    ((ruleBasedAnalysis query).reasoningRequired = true ↔
      (specComplexity query > (0.3 : ℚ) ∨ specRelationIntensity query > (0.3 : ℚ))) ∧
    ((ruleBasedAnalysis query).recommendedStrategy, (ruleBasedAnalysis query).confidence) =
      specStrategyChoice (specComplexity query) (specRelationIntensity query) := by
  unfold ruleBasedAnalysis specStrategyChoice specComplexity specRelationIntensity
  rw [countContained_eq query complexityKeywords, countContained_eq query relationKeywords]
  dsimp only
  constructor
  · split
    · rfl
    · split <;> rfl
  constructor
  · split
    · rfl
    · split <;> rfl
  constructor
  · split
    · rfl
    · split <;> rfl
  constructor
  · split
    · simp
    · split <;> simp
  · split
    · rfl
    · split <;> rfl

/-! Graph query intent classifier (graph_reterval.go lines 279-390). -/

/-- RouteStatistics record. -/
structure RouteStatistics where
  traditionalCount : Nat
  graphRAGCount : Nat
  combinedCount : Nat
  totalQueries : Nat
  traditionalRatio : ℚ
  graphRAGRatio : ℚ
  combinedRatio : ℚ
  deriving DecidableEq

/-- The statistics a freshly constructed router holds. -/
def initRouteStats : RouteStatistics := ⟨0, 0, 0, 0, 0, 0, 0⟩

/-- updateRouteStats (intelligent_query_router.go lines 350-369). -/
def updateRouteStats (s : RouteStatistics) (strategy : SearchStrategy) :
    RouteStatistics :=
  let s := { s with totalQueries := s.totalQueries + 1 }
  let s :=
    match strategy with
    | .hybridTraditional => { s with traditionalCount := s.traditionalCount + 1 }
    | .graphRAG => { s with graphRAGCount := s.graphRAGCount + 1 }
    | .combined => { s with combinedCount := s.combinedCount + 1 }
    | .other _ => s
  let total : ℚ := (s.totalQueries : ℚ)
  if total > 0 then
    { s with
      traditionalRatio := (s.traditionalCount : ℚ) / total,
      graphRAGRatio := (s.graphRAGCount : ℚ) / total,
      combinedRatio := (s.combinedCount : ℚ) / total }
  else s

/-- The statistics after a sequence of RouteQuery calls: RouteQuery
feeds updateRouteStats the strategy recommended by its (rule-based)
analysis of each query. -/
def routeStatsAfter (queries : List String) : RouteStatistics :=
  queries.foldl
    (fun s q => updateRouteStats s (ruleBasedAnalysis q).recommendedStrategy)
    initRouteStats

/-- The statistics invariant of the spec. -/
def statsInv (s : RouteStatistics) : Prop :=
  s.totalQueries = s.traditionalCount + s.graphRAGCount + s.combinedCount ∧
  s.traditionalRatio =
    (if s.totalQueries = 0 then 0
     else (s.traditionalCount : ℚ) / (s.totalQueries : ℚ)) ∧
  s.graphRAGRatio =
    (if s.totalQueries = 0 then 0
     else (s.graphRAGCount : ℚ) / (s.totalQueries : ℚ)) ∧
  s.combinedRatio =
    (if s.totalQueries = 0 then 0
     else (s.combinedCount : ℚ) / (s.totalQueries : ℚ))

lemma ruleBasedAnalysis_strategy (q : String) :
    (ruleBasedAnalysis q).recommendedStrategy = .hybridTraditional ∨
    (ruleBasedAnalysis q).recommendedStrategy = .graphRAG ∨
    (ruleBasedAnalysis q).recommendedStrategy = .combined := by
  unfold ruleBasedAnalysis
  dsimp only
  split
  · exact Or.inr (Or.inl rfl)
  · split
    · exact Or.inr (Or.inr rfl)
    · exact Or.inl rfl

lemma updateRouteStats_inv (s : RouteStatistics) (strat : SearchStrategy)
    (hs : statsInv s)
    (h : strat = .hybridTraditional ∨ strat = .graphRAG ∨ strat = .combined) :
    statsInv (updateRouteStats s strat) := by
  obtain ⟨h1, _, _, _⟩ := hs
  have hpos : ∀ n : Nat, ((n + 1 : Nat) : ℚ) > 0 := by
    intro n
    positivity
  unfold updateRouteStats statsInv
  rcases h with rfl | rfl | rfl <;> dsimp only <;>
    rw [if_pos (hpos s.totalQueries)] <;>
    refine ⟨by dsimp only; omega, ?_, ?_, ?_⟩ <;>
    simp [Nat.succ_ne_zero]

lemma statsInv_foldl (qs : List String) (s : RouteStatistics)
    (hs : statsInv s) :
    statsInv (qs.foldl
      (fun s q => updateRouteStats s (ruleBasedAnalysis q).recommendedStrategy)
      s) := by
  induction qs generalizing s with
  | nil => exact hs
  | cons q rest ih =>
    exact ih _ (updateRouteStats_inv _ _ hs (ruleBasedAnalysis_strategy q))

lemma updateRouteStats_mono (s : RouteStatistics) (strat : SearchStrategy) :
    s.traditionalCount ≤ (updateRouteStats s strat).traditionalCount ∧
    s.graphRAGCount ≤ (updateRouteStats s strat).graphRAGCount ∧
    s.combinedCount ≤ (updateRouteStats s strat).combinedCount ∧
    s.totalQueries ≤ (updateRouteStats s strat).totalQueries := by
  unfold updateRouteStats
  cases strat <;> dsimp only <;> split <;> dsimp only <;> omega

/-- C4: after every sequence of RouteQuery calls starting from the
fresh router, the total equals the sum of the three strategy counters,
each ratio equals its counter divided by the total (zero when the
total is zero), and all four counters are monotonically non-decreasing
from one call to the next. -/
theorem routeStats_invariant (queries : List String) :
    (routeStatsAfter queries).totalQueries =
      (routeStatsAfter queries).traditionalCount +
      (routeStatsAfter queries).graphRAGCount +
      (routeStatsAfter queries).combinedCount ∧
    (routeStatsAfter queries).traditionalRatio =
      (if (routeStatsAfter queries).totalQueries = 0 then 0
       else ((routeStatsAfter queries).traditionalCount : ℚ) /
         ((routeStatsAfter queries).totalQueries : ℚ)) ∧
    (routeStatsAfter queries).graphRAGRatio =
      (if (routeStatsAfter queries).totalQueries = 0 then 0
       else ((routeStatsAfter queries).graphRAGCount : ℚ) /
         ((routeStatsAfter queries).totalQueries : ℚ)) ∧
    (routeStatsAfter queries).combinedRatio =
      (if (routeStatsAfter queries).totalQueries = 0 then 0
       else ((routeStatsAfter queries).combinedCount : ℚ) /
         ((routeStatsAfter queries).totalQueries : ℚ)) ∧
    ∀ q : String,
      (routeStatsAfter queries).traditionalCount ≤
        (routeStatsAfter (queries ++ [q])).traditionalCount ∧
      (routeStatsAfter queries).graphRAGCount ≤
        (routeStatsAfter (queries ++ [q])).graphRAGCount ∧
      (routeStatsAfter queries).combinedCount ≤
        (routeStatsAfter (queries ++ [q])).combinedCount ∧
      (routeStatsAfter queries).totalQueries ≤
        (routeStatsAfter (queries ++ [q])).totalQueries := by
  have hinit : statsInv initRouteStats := by
    refine ⟨rfl, ?_, ?_, ?_⟩ <;> simp [initRouteStats]
  obtain ⟨h1, h2, h3, h4⟩ := statsInv_foldl queries initRouteStats hinit
  refine ⟨h1, h2, h3, h4, ?_⟩
  intro q
  have happ : routeStatsAfter (queries ++ [q]) =
      updateRouteStats (routeStatsAfter queries)
        (ruleBasedAnalysis q).recommendedStrategy := by
    unfold routeStatsAfter
    rw [List.foldl_append]
    rfl
  rw [happ]
  exact updateRouteStats_mono _ _

/-! Round-robin merges: HybridSearch (hybrid_retrieval.go lines
880-955) and executeCombinedSearch (intelligent_query_router.go lines
285-330). -/

/-- Pad the two document streams to a common list of position pairs:
entry i holds the i-th document of each stream when present. The Go
code loops over i up to the maximum length with bounds checks;
iterating this list is the same traversal. -/
def zipPad : List Doc → List Doc → List (Option Doc × Option Doc)
  | [], vs => vs.map (fun v => (none, some v))
  | d :: ds, [] => (some d, none) :: zipPad ds []
  | d :: ds, v :: vs => (some d, some v) :: zipPad ds vs

/-- The document id the HybridSearch merge dedups on: the node id
annotation rendered with the v verb when present, otherwise a
positional fallback id. -/
def hybridDocID (tag : String) (i : Nat) (d : Doc) : String :=
  match metaGet d.meta "node_id" with
  | some v => metaFmt v
  | none => tag ++ "_" ++ toString i

/-- The unified final score of a dual-level document: the relevance
score annotation copied verbatim, 0.0 when absent. -/
def dualFinalScore : Option MetaVal → MetaVal
  | some v => v
  | none => .vFloat 0

/-- The unified final score of a vector document: the cosine distance
converted into a similarity, 0.0 when the score annotation is absent
or not a float. -/
def vectorFinalScore : Option MetaVal → ℚ
  | some (.vFloat scoreFloat) =>
    if scoreFloat ≤ 1 then
      let similarityScore := 1 - scoreFloat
      if similarityScore < 0 then 0 else similarityScore
    else 0
  | some _ => 0
  | none => 0

/-- Annotation of a dual-level document emitted by the merge: search
method, round robin order, and the unified final score read back from
the document map. -/
def annotateDualDoc (order : Nat) (d : Doc) : Doc :=
  let m := metaSet d.meta "search_method" (.vStr "dual_level")
  let m := metaSet m "round_robin_order" (.vInt order)
  let m := metaSet m "final_score" (dualFinalScore (metaGet m "relevance_score"))
  { d with meta := m }

/-- Annotation of a vector document emitted by the merge. -/
def annotateVectorDoc (order : Nat) (d : Doc) : Doc :=
  let m := metaSet d.meta "search_method" (.vStr "vector_enhanced")
  let m := metaSet m "round_robin_order" (.vInt order)
  let m := metaSet m "final_score" (.vFloat (vectorFinalScore (metaGet m "score")))
  { d with meta := m }

/-- One dual-stream emission attempt of the HybridSearch merge loop. -/
def hybridDualStep (i : Nat) (st : List Doc × List String) (d : Doc) :
    List Doc × List String :=
  let docID := hybridDocID "dual" i d
  if docID ∈ st.2 then st
  else (st.1 ++ [annotateDualDoc st.1.length d], docID :: st.2)

/-- One vector-stream emission attempt of the HybridSearch merge loop. -/
def hybridVectorStep (i : Nat) (st : List Doc × List String) (d : Doc) :
    List Doc × List String :=
  let docID := hybridDocID "vector" i d
  if docID ∈ st.2 then st
  else (st.1 ++ [annotateVectorDoc st.1.length d], docID :: st.2)

/-- The merge loop of HybridSearch over the padded position pairs,
dual entry first. -/
def hybridMergeLoop (i : Nat) (st : List Doc × List String) :
    List (Option Doc × Option Doc) → List Doc
  | [] => st.1
  | (od, ov) :: rest =>
    let st1 := match od with | some d => hybridDualStep i st d | none => st
    let st2 := match ov with | some v => hybridVectorStep i st1 v | none => st1
    hybridMergeLoop (i + 1) st2 rest

/-- The HybridSearch merge: round-robin loop, then truncation of the
merged list to the first topK entries. -/
def hybridSearchMerge (dualDocs vectorDocs : List Doc) (topK : Nat) :
    List Doc :=
  (hybridMergeLoop 0 ([], []) (zipPad dualDocs vectorDocs)).take topK

/-- Go fmt with the x verb on a natural number. -/
def hexStr (n : Nat) : String := ⟨Nat.toDigits 16 n⟩

/-- hashString (intelligent_query_router.go lines 462-465): the hex
rendering of the byte length xor the first byte; indexing the first
byte of an empty string panics (none). -/
def hashString (s : List Nat) : Option String :=
  match s with
  | [] => none
  | b :: _ => some (hexStr (s.length ^^^ b))

/-- The dedup key of a document in executeCombinedSearch: hashString
of the first min(100, len) content bytes. -/
def contentHashKey (d : Doc) : Option String :=
  hashString (d.content.take (min 100 d.content.length))

/-- One emission attempt of the combined merge: hash the content
prefix (none models the out-of-range panic on empty content), skip
seen hashes, tag the search source. -/
def combinedStep (source : String) (st : Option (List Doc × List String))
    (od : Option Doc) : Option (List Doc × List String) :=
  match st, od with
  | none, _ => none
  | some st, none => some st
  | some st, some d =>
    match contentHashKey d with
    | none => none
    | some h =>
      if h ∈ st.2 then some st
      else some
        (st.1 ++ [{ d with meta := metaSet d.meta "search_source" (.vStr source) }],
          h :: st.2)

/-- The merge loop of executeCombinedSearch: the graph document of
each position first, then the traditional one. -/
def combinedMergeLoop (st : Option (List Doc × List String)) :
    List (Option Doc × Option Doc) → Option (List Doc × List String)
  | [] => st
  | (og, ot) :: rest =>
    combinedMergeLoop (combinedStep "traditional" (combinedStep "graph_rag" st og) ot)
      rest

/-- The pure merge of executeCombinedSearch on the two retrieval
results, none standing for the hashString panic, with the final
truncation to topK. -/
def executeCombinedMerge (graphDocs traditionalDocs : List Doc) (topK : Nat) :
    Option (List Doc) :=
  (combinedMergeLoop (some ([], [])) (zipPad graphDocs traditionalDocs)).map
    (fun st => st.1.take topK)

/-! Specification-side round-robin merge, written from the spec
sentence: interleave the first stream entry of position i, then the
second, for i from 0 to the maximum length, skipping items whose
origin id was already emitted, stopping once topK unique items are
collected. -/

/-- An item selected by the specification merge: the stream it came
from, its position there, its emission position, and the original
document. -/
structure MergeItem where
  fromFirst : Bool
  srcIdx : Nat
  outIdx : Nat
  doc : Doc
  deriving DecidableEq

/-- The dedup key of a merge item under per-stream key functions. -/
def itemKey (keyF keyS : Nat → Doc → String) (it : MergeItem) : String :=
  if it.fromFirst then keyF it.srcIdx it.doc else keyS it.srcIdx it.doc

/-- Modelled from the spec: one candidate emission of the round-robin
merge, skipping already-emitted keys, emitting nothing once topK items
were collected. -/
def rrSpecStep (key : Nat → Doc → String) (fromFirst : Bool) (topK i : Nat)
    (st : List MergeItem × List String) (od : Option Doc) :
    List MergeItem × List String :=
  match od with
  | none => st
  | some d =>
    if topK ≤ st.1.length then st
    else
      let k := key i d
      if k ∈ st.2 then st
      else (st.1 ++ [⟨fromFirst, i, st.1.length, d⟩], k :: st.2)

/-- Modelled from the spec: the stopping round-robin interleaving. -/
def rrSpecLoop (keyF keyS : Nat → Doc → String) (topK : Nat) (i : Nat)
    (st : List MergeItem × List String) :
    List (Option Doc × Option Doc) → List MergeItem
  | [] => st.1
  | (oa, ob) :: rest =>
    if topK ≤ st.1.length then st.1
    else
      rrSpecLoop keyF keyS topK (i + 1)
        (rrSpecStep keyS false topK i (rrSpecStep keyF true topK i st oa) ob) rest

/-- Modelled from the spec: the round-robin merge of two streams up to
the first topK unique items. -/
def roundRobinSpecMerge (keyF keyS : Nat → Doc → String)
    (a b : List Doc) (topK : Nat) : List MergeItem :=
  rrSpecLoop keyF keyS topK 0 ([], []) (zipPad a b)

/-- The same emission attempt without the stopping condition. -/
def rrFullStep (key : Nat → Doc → String) (fromFirst : Bool) (i : Nat)
    (st : List MergeItem × List String) (od : Option Doc) :
    List MergeItem × List String :=
  match od with
  | none => st
  | some d =>
    let k := key i d
    if k ∈ st.2 then st
    else (st.1 ++ [⟨fromFirst, i, st.1.length, d⟩], k :: st.2)

/-- The interleaving without the stopping condition. -/
def rrFullLoop (keyF keyS : Nat → Doc → String) (i : Nat)
    (st : List MergeItem × List String) :
    List (Option Doc × Option Doc) → List MergeItem × List String
  | [] => st
  | (oa, ob) :: rest =>
    rrFullLoop keyF keyS (i + 1)
      (rrFullStep keyS false i (rrFullStep keyF true i st oa) ob) rest

/-! Structural lemmas relating the stopping specification merge, the
non-stopping one, and the code merges. -/

lemma rrFullStep_none (key : Nat → Doc → String) (ff : Bool) (i : Nat)
    (st : List MergeItem × List String) :
    rrFullStep key ff i st none = st := rfl

lemma rrFullStep_mk (key : Nat → Doc → String) (ff : Bool) (i : Nat)
    (st : List MergeItem × List String) (od : Option Doc) :
    ((rrFullStep key ff i st od).1, (rrFullStep key ff i st od).2) =
      rrFullStep key ff i st od := rfl

lemma rrFullStep_grows (key : Nat → Doc → String) (ff : Bool) (i : Nat)
    (st : List MergeItem × List String) (od : Option Doc) :
    ∃ ext, (rrFullStep key ff i st od).1 = st.1 ++ ext := by
  unfold rrFullStep
  rcases od with _ | d
  · exact ⟨[], by simp⟩
  · dsimp only
    split
    · exact ⟨[], by simp⟩
    · exact ⟨_, rfl⟩

lemma rrFullStep_len (key : Nat → Doc → String) (ff : Bool) (i : Nat)
    (st : List MergeItem × List String) (od : Option Doc) :
    (rrFullStep key ff i st od).1.length = st.1.length ∨
    (rrFullStep key ff i st od).1.length = st.1.length + 1 := by
  unfold rrFullStep
  rcases od with _ | d
  · exact Or.inl rfl
  · dsimp only
    split
    · exact Or.inl rfl
    · right; simp

lemma rrFullLoop_grows (keyF keyS : Nat → Doc → String)
    (pairs : List (Option Doc × Option Doc)) :
    ∀ (i : Nat) (st : List MergeItem × List String),
      ∃ ext, (rrFullLoop keyF keyS i st pairs).1 = st.1 ++ ext := by
  induction pairs with
  | nil =>
    intro i st
    exact ⟨[], by simp [rrFullLoop]⟩
  | cons p rest ih =>
    intro i st
    obtain ⟨oa, ob⟩ := p
    obtain ⟨e1, h1⟩ := rrFullStep_grows keyF true i st oa
    obtain ⟨e2, h2⟩ :=
      rrFullStep_grows keyS false i (rrFullStep keyF true i st oa) ob
    obtain ⟨e3, h3⟩ :=
      ih (i + 1) (rrFullStep keyS false i (rrFullStep keyF true i st oa) ob)
    refine ⟨e1 ++ e2 ++ e3, ?_⟩
    simp only [rrFullLoop, h3, h2, h1]
    simp [List.append_assoc]

lemma rrSpecLoop_stop (keyF keyS : Nat → Doc → String) (topK : Nat)
    (pairs : List (Option Doc × Option Doc)) :
    ∀ (i : Nat) (st : List MergeItem × List String),
      topK ≤ st.1.length → rrSpecLoop keyF keyS topK i st pairs = st.1 := by
  induction pairs with
  | nil => intro i st _; rfl
  | cons p rest ih =>
    intro i st h
    obtain ⟨oa, ob⟩ := p
    simp [rrSpecLoop, h]

lemma rrSpecStep_eq_full (key : Nat → Doc → String) (ff : Bool)
    (topK i : Nat) (st : List MergeItem × List String) (od : Option Doc)
    (h : st.1.length < topK) :
    rrSpecStep key ff topK i st od = rrFullStep key ff i st od := by
  unfold rrSpecStep rrFullStep
  rcases od with _ | d
  · rfl
  · dsimp only
    rw [if_neg (by omega)]

lemma rrSpecLoop_eq_take (keyF keyS : Nat → Doc → String) (topK : Nat)
    (pairs : List (Option Doc × Option Doc)) :
    ∀ (i : Nat) (st : List MergeItem × List String), st.1.length ≤ topK →
      rrSpecLoop keyF keyS topK i st pairs =
        ((rrFullLoop keyF keyS i st pairs).1).take topK := by
  induction pairs with
  | nil =>
    intro i st h
    simp only [rrSpecLoop, rrFullLoop]
    exact (List.take_of_length_le h).symm
  | cons p rest ih =>
    intro i st h
    obtain ⟨oa, ob⟩ := p
    by_cases hstop : topK ≤ st.1.length
    · have hlen : st.1.length = topK := le_antisymm h hstop
      obtain ⟨ext, hext⟩ := rrFullLoop_grows keyF keyS ((oa, ob) :: rest) i st
      rw [hext, ← hlen, List.take_left]
      exact rrSpecLoop_stop keyF keyS _ _ i st le_rfl
    · push_neg at hstop
      simp only [rrSpecLoop, if_neg (by omega : ¬ topK ≤ st.1.length), rrFullLoop]
      rw [rrSpecStep_eq_full keyF true topK i st oa hstop]
      by_cases h1 : (rrFullStep keyF true i st oa).1.length < topK
      · rw [rrSpecStep_eq_full keyS false topK i _ ob h1]
        refine ih (i + 1) _ ?_
        rcases rrFullStep_len keyS false i (rrFullStep keyF true i st oa) ob with
          hh | hh <;> omega
      · push_neg at h1
        have hle1 : (rrFullStep keyF true i st oa).1.length ≤ topK := by
          rcases rrFullStep_len keyF true i st oa with hh | hh <;> omega
        have hlen1 : (rrFullStep keyF true i st oa).1.length = topK :=
          le_antisymm hle1 h1
        have hspec2 : rrSpecStep keyS false topK i (rrFullStep keyF true i st oa) ob =
            rrFullStep keyF true i st oa := by
          unfold rrSpecStep
          rcases ob with _ | d
          · rfl
          · dsimp only
            rw [if_pos (by omega)]
        rw [hspec2,
          rrSpecLoop_stop keyF keyS topK rest (i + 1) _ (by omega)]
        obtain ⟨e2, he2⟩ :=
          rrFullStep_grows keyS false i (rrFullStep keyF true i st oa) ob
        obtain ⟨e3, he3⟩ :=
          rrFullLoop_grows keyF keyS rest (i + 1)
            (rrFullStep keyS false i (rrFullStep keyF true i st oa) ob)
        rw [he3, he2, List.append_assoc, ← hlen1, List.take_left]

/-- The per-item annotation relating the specification merge to the
HybridSearch merge. -/
def hybridAnnot (it : MergeItem) : Doc :=
  if it.fromFirst then annotateDualDoc it.outIdx it.doc
  else annotateVectorDoc it.outIdx it.doc

lemma hybridDualStep_eq (i : Nat) (out : List MergeItem) (seen : List String)
    (d : Doc) :
    hybridDualStep i (out.map hybridAnnot, seen) d =
      ((rrFullStep (hybridDocID "dual") true i (out, seen) (some d)).1.map hybridAnnot,
        (rrFullStep (hybridDocID "dual") true i (out, seen) (some d)).2) := by
  unfold hybridDualStep rrFullStep
  dsimp only
  split
  · rfl
  · simp [hybridAnnot]

lemma hybridVectorStep_eq (i : Nat) (out : List MergeItem) (seen : List String)
    (d : Doc) :
    hybridVectorStep i (out.map hybridAnnot, seen) d =
      ((rrFullStep (hybridDocID "vector") false i (out, seen) (some d)).1.map hybridAnnot,
        (rrFullStep (hybridDocID "vector") false i (out, seen) (some d)).2) := by
  unfold hybridVectorStep rrFullStep
  dsimp only
  split
  · rfl
  · simp [hybridAnnot]

lemma hybridMergeLoop_eq (pairs : List (Option Doc × Option Doc)) :
    ∀ (i : Nat) (out : List MergeItem) (seen : List String),
      hybridMergeLoop i (out.map hybridAnnot, seen) pairs =
        ((rrFullLoop (hybridDocID "dual") (hybridDocID "vector") i (out, seen)
          pairs).1).map hybridAnnot := by
  induction pairs with
  | nil => intro i out seen; rfl
  | cons p rest ih =>
    intro i out seen
    obtain ⟨oa, ob⟩ := p
    rcases oa with _ | d <;> rcases ob with _ | v
    · simpa only [hybridMergeLoop, rrFullLoop, rrFullStep_none] using
        ih (i + 1) out seen
    · simp only [hybridMergeLoop, rrFullLoop, rrFullStep_none]
      rw [hybridVectorStep_eq]
      have h := ih (i + 1)
        (rrFullStep (hybridDocID "vector") false i (out, seen) (some v)).1
        (rrFullStep (hybridDocID "vector") false i (out, seen) (some v)).2
      rwa [rrFullStep_mk] at h
    · simp only [hybridMergeLoop, rrFullLoop, rrFullStep_none]
      rw [hybridDualStep_eq]
      have h := ih (i + 1)
        (rrFullStep (hybridDocID "dual") true i (out, seen) (some d)).1
        (rrFullStep (hybridDocID "dual") true i (out, seen) (some d)).2
      rwa [rrFullStep_mk] at h
    · simp only [hybridMergeLoop, rrFullLoop]
      rw [hybridDualStep_eq, hybridVectorStep_eq]
      have h := ih (i + 1)
        (rrFullStep (hybridDocID "vector") false i
          (rrFullStep (hybridDocID "dual") true i (out, seen) (some d)) (some v)).1
        (rrFullStep (hybridDocID "vector") false i
          (rrFullStep (hybridDocID "dual") true i (out, seen) (some d)) (some v)).2
      rw [rrFullStep_mk] at h
      rw [← rrFullStep_mk (hybridDocID "dual") true i (out, seen) (some d)]
      exact h

/-- The HybridSearch merge refines the specification round-robin merge
keyed on the document origin id. -/
lemma hybridSearchMerge_spec (dual vec : List Doc) (topK : Nat) :
    hybridSearchMerge dual vec topK =
      (roundRobinSpecMerge (hybridDocID "dual") (hybridDocID "vector")
        dual vec topK).map hybridAnnot := by
  unfold hybridSearchMerge roundRobinSpecMerge
  have h1 := hybridMergeLoop_eq (zipPad dual vec) 0 [] []
  simp only [List.map_nil] at h1
  rw [h1, ← List.map_take,
    rrSpecLoop_eq_take _ _ topK (zipPad dual vec) 0 ([], []) (by simp)]

lemma rrFullStep_nodup (keyF keyS key : Nat → Doc → String) (ff : Bool)
    (hk : ∀ j d, key j d = if ff then keyF j d else keyS j d)
    (i : Nat) (st : List MergeItem × List String) (od : Option Doc)
    (h : (st.1.map (itemKey keyF keyS)).Nodup)
    (hsub : ∀ k ∈ st.1.map (itemKey keyF keyS), k ∈ st.2) :
    (((rrFullStep key ff i st od).1).map (itemKey keyF keyS)).Nodup ∧
      ∀ k ∈ ((rrFullStep key ff i st od).1).map (itemKey keyF keyS),
        k ∈ (rrFullStep key ff i st od).2 := by
  unfold rrFullStep
  rcases od with _ | d
  · exact ⟨h, hsub⟩
  · dsimp only
    split
    · exact ⟨h, hsub⟩
    · rename_i hnot
      have hnew : itemKey keyF keyS ⟨ff, i, st.1.length, d⟩ = key i d := by
        simp [itemKey, hk]
      constructor
      · rw [List.map_append]
        refine List.Nodup.append h (by simp) ?_
        intro k hk1 hk2
        simp only [List.map_cons, List.map_nil, List.mem_singleton, hnew] at hk2
        exact hnot (hk2 ▸ hsub k hk1)
      · intro k hkmem
        rw [List.map_append] at hkmem
        rcases List.mem_append.mp hkmem with hm | hm
        · exact List.mem_cons_of_mem _ (hsub k hm)
        · simp only [List.map_cons, List.map_nil, List.mem_singleton, hnew] at hm
          exact hm ▸ List.mem_cons_self _ _

lemma rrFullLoop_nodup (keyF keyS : Nat → Doc → String)
    (pairs : List (Option Doc × Option Doc)) :
    ∀ (i : Nat) (st : List MergeItem × List String),
      (st.1.map (itemKey keyF keyS)).Nodup →
      (∀ k ∈ st.1.map (itemKey keyF keyS), k ∈ st.2) →
      (((rrFullLoop keyF keyS i st pairs).1).map (itemKey keyF keyS)).Nodup := by
  induction pairs with
  | nil => intro i st h _; exact h
  | cons p rest ih =>
    intro i st h hsub
    obtain ⟨oa, ob⟩ := p
    obtain ⟨h1, hsub1⟩ :=
      rrFullStep_nodup keyF keyS keyF true (by intro j d; rfl) i st oa h hsub
    obtain ⟨h2, hsub2⟩ :=
      rrFullStep_nodup keyF keyS keyS false (by intro j d; rfl) i
        (rrFullStep keyF true i st oa) ob h1 hsub1
    exact ih (i + 1) _ h2 hsub2

/-- The specification merge emits pairwise distinct keys. -/
lemma roundRobinSpecMerge_nodup (keyF keyS : Nat → Doc → String)
    (a b : List Doc) (topK : Nat) :
    ((roundRobinSpecMerge keyF keyS a b topK).map (itemKey keyF keyS)).Nodup := by
  unfold roundRobinSpecMerge
  rw [rrSpecLoop_eq_take _ _ topK (zipPad a b) 0 ([], []) (by simp),
    List.map_take]
  exact List.Nodup.sublist (List.take_sublist _ _)
    (rrFullLoop_nodup keyF keyS (zipPad a b) 0 ([], []) (by simp) (by simp))

lemma rrFullStep_mem (key : Nat → Doc → String) (ff : Bool) (i : Nat)
    (st : List MergeItem × List String) (od : Option Doc) (it : MergeItem)
    (h : it ∈ (rrFullStep key ff i st od).1) :
    it ∈ st.1 ∨ od = some it.doc := by
  unfold rrFullStep at h
  rcases od with _ | d
  · exact Or.inl h
  · dsimp only at h
    split at h
    · exact Or.inl h
    · rcases List.mem_append.mp h with hm | hm
      · exact Or.inl hm
      · right
        simp only [List.mem_singleton] at hm
        rw [hm]

lemma rrFullLoop_mem (keyF keyS : Nat → Doc → String)
    (pairs : List (Option Doc × Option Doc)) :
    ∀ (i : Nat) (st : List MergeItem × List String) (it : MergeItem),
      it ∈ (rrFullLoop keyF keyS i st pairs).1 →
      it ∈ st.1 ∨ ∃ p ∈ pairs, p.1 = some it.doc ∨ p.2 = some it.doc := by
  induction pairs with
  | nil => intro i st it h; exact Or.inl h
  | cons p rest ih =>
    intro i st it h
    obtain ⟨oa, ob⟩ := p
    rcases ih (i + 1) _ it h with hm | ⟨q, hq, hval⟩
    · rcases rrFullStep_mem keyS false i _ ob it hm with hm2 | hm2
      · rcases rrFullStep_mem keyF true i st oa it hm2 with hm3 | hm3
        · exact Or.inl hm3
        · exact Or.inr ⟨(oa, ob), List.mem_cons_self _ _, Or.inl hm3⟩
      · exact Or.inr ⟨(oa, ob), List.mem_cons_self _ _, Or.inr hm2⟩
    · exact Or.inr ⟨q, List.mem_cons_of_mem _ hq, hval⟩

lemma zipPad_mem (a : List Doc) :
    ∀ (b : List Doc), ∀ p ∈ zipPad a b,
      (∀ d, p.1 = some d → d ∈ a) ∧ (∀ d, p.2 = some d → d ∈ b) := by
  induction a with
  | nil =>
    intro b p hp
    simp only [zipPad, List.mem_map] at hp
    obtain ⟨v, hv, rfl⟩ := hp
    constructor
    · intro d hd; cases hd
    · intro d hd
      simp only [Option.some.injEq] at hd
      exact hd ▸ hv
  | cons x xs ih =>
    intro b p hp
    rcases b with _ | ⟨y, ys⟩
    · simp only [zipPad, List.mem_cons] at hp
      rcases hp with rfl | hp
      · constructor
        · intro d hd
          simp only [Option.some.injEq] at hd
          exact hd ▸ List.mem_cons_self _ _
        · intro d hd; cases hd
      · obtain ⟨h1, h2⟩ := ih [] p hp
        constructor
        · intro d hd; exact List.mem_cons_of_mem _ (h1 d hd)
        · intro d hd; exact absurd (h2 d hd) (List.not_mem_nil d)
    · simp only [zipPad, List.mem_cons] at hp
      rcases hp with rfl | hp
      · constructor
        · intro d hd
          simp only [Option.some.injEq] at hd
          exact hd ▸ List.mem_cons_self _ _
        · intro d hd
          simp only [Option.some.injEq] at hd
          exact hd ▸ List.mem_cons_self _ _
      · obtain ⟨h1, h2⟩ := ih ys p hp
        constructor
        · intro d hd; exact List.mem_cons_of_mem _ (h1 d hd)
        · intro d hd; exact List.mem_cons_of_mem _ (h2 d hd)

/-- Every item of the specification merge originates from one of the
two input streams. -/
lemma roundRobinSpecMerge_mem (keyF keyS : Nat → Doc → String)
    (a b : List Doc) (topK : Nat) (it : MergeItem)
    (h : it ∈ roundRobinSpecMerge keyF keyS a b topK) :
    it.doc ∈ a ∨ it.doc ∈ b := by
  unfold roundRobinSpecMerge at h
  rw [rrSpecLoop_eq_take _ _ topK (zipPad a b) 0 ([], []) (by simp)] at h
  have h2 := (List.take_sublist _ _).mem h
  rcases rrFullLoop_mem keyF keyS (zipPad a b) 0 ([], []) it h2 with hm | ⟨p, hp, hval⟩
  · cases hm
  · obtain ⟨h1, hsnd⟩ := zipPad_mem a b p hp
    rcases hval with hv | hv
    · exact Or.inl (h1 it.doc hv)
    · exact Or.inr (hsnd it.doc hv)

/-- The total form of the combined dedup key on a document of
non-empty content. -/
def combinedDocKey (d : Doc) : String :=
  hexStr ((min 100 d.content.length) ^^^ d.content.headD 0)

/-- The per-item annotation relating the specification merge to the
combined merge: the search source tag. -/
def combinedAnnot (it : MergeItem) : Doc :=
  { it.doc with
    meta := metaSet it.doc.meta "search_source"
      (.vStr (if it.fromFirst then "graph_rag" else "traditional")) }

lemma contentHashKey_nonempty (d : Doc) (h : d.content ≠ []) :
    contentHashKey d = some (combinedDocKey d) := by
  rcases hc : d.content with _ | ⟨b, rest⟩
  · exact absurd hc h
  · unfold contentHashKey hashString combinedDocKey
    rw [hc]
    have hmin : min 100 (b :: rest).length = min 99 rest.length + 1 := by
      simp only [List.length_cons]
      omega
    rw [hmin, List.take_succ_cons]
    dsimp only
    have hlen : (b :: rest.take (min 99 rest.length)).length =
        min 99 rest.length + 1 := by
      simp only [List.length_cons, List.length_take]
      omega
    rw [hlen]
    simp only [List.headD_cons, List.length_cons]

lemma combinedStep_eq (src : String) (ff : Bool)
    (hsrc : src = if ff then "graph_rag" else "traditional")
    (i : Nat) (out : List MergeItem) (seen : List String) (od : Option Doc)
    (hod : ∀ d, od = some d → d.content ≠ []) :
    combinedStep src (some (out.map combinedAnnot, seen)) od =
      some (((rrFullStep (fun _ d => combinedDocKey d) ff i (out, seen) od).1).map
          combinedAnnot,
        (rrFullStep (fun _ d => combinedDocKey d) ff i (out, seen) od).2) := by
  rcases od with _ | d
  · rfl
  · unfold combinedStep rrFullStep
    dsimp only
    rw [contentHashKey_nonempty d (hod d rfl)]
    dsimp only
    split
    · rfl
    · simp [combinedAnnot, hsrc]

lemma combinedMergeLoop_eq (pairs : List (Option Doc × Option Doc))
    (hpairs : ∀ p ∈ pairs,
      (∀ d, p.1 = some d → d.content ≠ []) ∧ (∀ d, p.2 = some d → d.content ≠ [])) :
    ∀ (i : Nat) (out : List MergeItem) (seen : List String),
      combinedMergeLoop (some (out.map combinedAnnot, seen)) pairs =
        some (((rrFullLoop (fun _ d => combinedDocKey d) (fun _ d => combinedDocKey d)
            i (out, seen) pairs).1).map combinedAnnot,
          (rrFullLoop (fun _ d => combinedDocKey d) (fun _ d => combinedDocKey d)
            i (out, seen) pairs).2) := by
  induction pairs with
  | nil => intro i out seen; rfl
  | cons p rest ih =>
    intro i out seen
    obtain ⟨og, ot⟩ := p
    have hp := hpairs (og, ot) (List.mem_cons_self _ _)
    have hrest : ∀ p ∈ rest,
        (∀ d, p.1 = some d → d.content ≠ []) ∧ (∀ d, p.2 = some d → d.content ≠ []) :=
      fun q hq => hpairs q (List.mem_cons_of_mem _ hq)
    simp only [combinedMergeLoop, rrFullLoop]
    rw [combinedStep_eq "graph_rag" true rfl i out seen og hp.1,
      combinedStep_eq "traditional" false rfl i
        (rrFullStep (fun _ d => combinedDocKey d) true i (out, seen) og).1
        (rrFullStep (fun _ d => combinedDocKey d) true i (out, seen) og).2 ot hp.2,
      rrFullStep_mk]
    have h := ih hrest (i + 1)
      (rrFullStep (fun _ d => combinedDocKey d) false i
        (rrFullStep (fun _ d => combinedDocKey d) true i (out, seen) og) ot).1
      (rrFullStep (fun _ d => combinedDocKey d) false i
        (rrFullStep (fun _ d => combinedDocKey d) true i (out, seen) og) ot).2
    rwa [rrFullStep_mk] at h

/-- The combined merge on streams of non-empty-content documents
refines the specification round-robin merge keyed on the content
prefix hash, graph stream first. -/
lemma executeCombinedMerge_spec (g t : List Doc) (topK : Nat)
    (hg : ∀ d ∈ g, d.content ≠ []) (ht : ∀ d ∈ t, d.content ≠ []) :
    executeCombinedMerge g t topK =
      some ((roundRobinSpecMerge (fun _ d => combinedDocKey d)
        (fun _ d => combinedDocKey d) g t topK).map combinedAnnot) := by
  unfold executeCombinedMerge roundRobinSpecMerge
  have hpairs : ∀ p ∈ zipPad g t,
      (∀ d, p.1 = some d → d.content ≠ []) ∧ (∀ d, p.2 = some d → d.content ≠ []) := by
    intro p hp
    obtain ⟨h1, h2⟩ := zipPad_mem g t p hp
    exact ⟨fun d hd => hg d (h1 d hd), fun d hd => ht d (h2 d hd)⟩
  have h0 := combinedMergeLoop_eq (zipPad g t) hpairs 0 [] []
  simp only [List.map_nil] at h0
  rw [h0]
  dsimp only [Option.map]
  rw [← List.map_take,
    rrSpecLoop_eq_take _ _ topK (zipPad g t) 0 ([], []) (by simp)]

/-! Lookup lemmas about the merge annotations. -/

lemma metaGet_annotateDual_method (o : Nat) (d : Doc) :
    metaGet (annotateDualDoc o d).meta "search_method" =
      some (.vStr "dual_level") := rfl

lemma metaGet_annotateDual_final (o : Nat) (d : Doc) :
    metaGet (annotateDualDoc o d).meta "final_score" =
      some (dualFinalScore (metaGet d.meta "relevance_score")) := rfl

lemma metaGet_annotateDual_other (o : Nat) (d : Doc) (k : String)
    (h1 : "search_method" ≠ k) (h2 : "round_robin_order" ≠ k)
    (h3 : "final_score" ≠ k) :
    metaGet (annotateDualDoc o d).meta k = metaGet d.meta k := by
  simp only [annotateDualDoc, metaSet]
  simp only [metaGet]
  rw [if_neg h3, if_neg h2, if_neg h1]

lemma metaGet_annotateVector_method (o : Nat) (d : Doc) :
    metaGet (annotateVectorDoc o d).meta "search_method" =
      some (.vStr "vector_enhanced") := rfl

lemma metaGet_annotateVector_final (o : Nat) (d : Doc) :
    metaGet (annotateVectorDoc o d).meta "final_score" =
      some (.vFloat (vectorFinalScore (metaGet d.meta "score"))) := rfl

lemma metaGet_annotateVector_other (o : Nat) (d : Doc) (k : String)
    (h1 : "search_method" ≠ k) (h2 : "round_robin_order" ≠ k)
    (h3 : "final_score" ≠ k) :
    metaGet (annotateVectorDoc o d).meta k = metaGet d.meta k := by
  simp only [annotateVectorDoc, metaSet]
  simp only [metaGet]
  rw [if_neg h3, if_neg h2, if_neg h1]

/-- Modelled from the spec: the similarity transform
max(0, 1 - cosineDistance), 0 for an absent or non-float score. -/
def specVectorSimilarity : Option MetaVal → ℚ
  | some (.vFloat f) => max 0 (1 - f)
  | some _ => 0
  | none => 0

lemma vectorFinalScore_eq_spec (o : Option MetaVal) :
    vectorFinalScore o = specVectorSimilarity o := by
  unfold vectorFinalScore specVectorSimilarity
  rcases o with _ | v
  · rfl
  · rcases v with s | f | n | b
    · rfl
    · dsimp only
      by_cases hf : f ≤ 1
      · rw [if_pos hf]
        by_cases h0 : 1 - f < 0
        · rw [if_pos h0, eq_comm, max_eq_left (le_of_lt h0)]
        · rw [if_neg h0, eq_comm, max_eq_right (not_lt.mp h0)]
      · rw [if_neg hf, eq_comm, max_eq_left (by linarith [not_le.mp hf])]
    · rfl
    · rfl

/-- Rendering of an optional origin id, bridging key distinctness to
id distinctness. -/
def optionFmt : Option MetaVal → String
  | some v => metaFmt v
  | none => ""

lemma hybridAnnot_nodeId (it : MergeItem) :
    metaGet (hybridAnnot it).meta "node_id" = metaGet it.doc.meta "node_id" := by
  unfold hybridAnnot
  split
  · exact metaGet_annotateDual_other _ _ _ (by decide) (by decide) (by decide)
  · exact metaGet_annotateVector_other _ _ _ (by decide) (by decide) (by decide)

lemma hybridDocID_of_nodeId (tag : String) (i : Nat) (d : Doc) (v : MetaVal)
    (h : metaGet d.meta "node_id" = some v) : hybridDocID tag i d = metaFmt v := by
  unfold hybridDocID
  rw [h]

/-- C1 counterexample: the combined-strategy merge dedups on the
content-prefix hash, not on the origin id, so two documents carrying
the same origin id but different contents are both emitted. -/
theorem merge_dedup_cx :
    (executeCombinedMerge
        [⟨"g", [121, 121], [("node_id", MetaVal.vStr "A")]⟩]
        [⟨"t", [120], [("node_id", MetaVal.vStr "A")]⟩] 5).map
        (fun l => l.map (fun d => metaGet d.meta "node_id")) =
      some [some (MetaVal.vStr "A"), some (MetaVal.vStr "A")] ∧
    ¬ ([some (MetaVal.vStr "A"), some (MetaVal.vStr "A")] :
        List (Option MetaVal)).Nodup := by
  constructor
  · rfl
  · decide

/-- C1 amended: the HybridSearch merge equals the specification
round-robin interleaving (dual stream first) keyed on the origin id
(node id annotation, positional fallback), truncated to topK, and its
keys are pairwise distinct, so no two output documents share the same
origin id when the inputs carry node ids; the combined-strategy merge
equals the same round-robin interleaving (graph stream first) but
keyed on the content-prefix hash (on non-empty contents), with
pairwise distinct hash keys. -/
theorem merge_round_robin_amended (dual vec g t : List Doc) (topK : Nat) :
    (hybridSearchMerge dual vec topK =
      (roundRobinSpecMerge (hybridDocID "dual") (hybridDocID "vector")
        dual vec topK).map hybridAnnot) ∧
    ((roundRobinSpecMerge (hybridDocID "dual") (hybridDocID "vector")
        dual vec topK).map
        (itemKey (hybridDocID "dual") (hybridDocID "vector"))).Nodup ∧
    ((∀ d ∈ dual, ∃ v, metaGet d.meta "node_id" = some v) →
      (∀ d ∈ vec, ∃ v, metaGet d.meta "node_id" = some v) →
      ((hybridSearchMerge dual vec topK).map
        (fun d => metaGet d.meta "node_id")).Nodup) ∧
    ((∀ d ∈ g, d.content ≠ []) → (∀ d ∈ t, d.content ≠ []) →
      executeCombinedMerge g t topK =
        some ((roundRobinSpecMerge (fun _ d => combinedDocKey d)
          (fun _ d => combinedDocKey d) g t topK).map combinedAnnot) ∧
      ((roundRobinSpecMerge (fun _ d => combinedDocKey d)
          (fun _ d => combinedDocKey d) g t topK).map
          (itemKey (fun _ d => combinedDocKey d)
            (fun _ d => combinedDocKey d))).Nodup) := by
  refine ⟨hybridSearchMerge_spec dual vec topK,
    roundRobinSpecMerge_nodup _ _ dual vec topK, ?_, ?_⟩
  · intro hdual hvec
    have hpt : ∀ it ∈ roundRobinSpecMerge (hybridDocID "dual")
        (hybridDocID "vector") dual vec topK,
        optionFmt (metaGet (hybridAnnot it).meta "node_id") =
          itemKey (hybridDocID "dual") (hybridDocID "vector") it := by
      intro it hit
      have hex : ∃ v, metaGet it.doc.meta "node_id" = some v := by
        rcases roundRobinSpecMerge_mem _ _ _ _ _ it hit with hm | hm
        · exact hdual it.doc hm
        · exact hvec it.doc hm
      obtain ⟨v, hv⟩ := hex
      rw [hybridAnnot_nodeId, hv]
      unfold itemKey
      split
      · rw [hybridDocID_of_nodeId _ _ _ v hv]; rfl
      · rw [hybridDocID_of_nodeId _ _ _ v hv]; rfl
    rw [hybridSearchMerge_spec, List.map_map]
    apply List.Nodup.of_map optionFmt
    rw [List.map_map]
    have heq : (roundRobinSpecMerge (hybridDocID "dual") (hybridDocID "vector")
          dual vec topK).map
          (optionFmt ∘ (fun d => metaGet d.meta "node_id") ∘ hybridAnnot) =
        (roundRobinSpecMerge (hybridDocID "dual") (hybridDocID "vector")
          dual vec topK).map
          (itemKey (hybridDocID "dual") (hybridDocID "vector")) := by
      refine List.map_congr_left ?_
      intro it hit
      exact hpt it hit
    rw [heq]
    exact roundRobinSpecMerge_nodup _ _ dual vec topK
  · intro hg ht
    exact ⟨executeCombinedMerge_spec g t topK hg ht,
      roundRobinSpecMerge_nodup _ _ g t topK⟩

/-- C1 witness: the amended theorem applied at small concrete inputs. -/
theorem merge_round_robin_amended_witness :
    ((hybridSearchMerge [⟨"d", [1], [("node_id", MetaVal.vStr "n1")]⟩]
        [⟨"v", [2], [("node_id", MetaVal.vStr "n2")]⟩] 2).map
      (fun d => metaGet d.meta "node_id")).Nodup ∧
    (executeCombinedMerge [⟨"g", [3], []⟩] [⟨"t", [4, 5], []⟩] 2).isSome = true := by
  have h := merge_round_robin_amended
    [⟨"d", [1], [("node_id", MetaVal.vStr "n1")]⟩]
    [⟨"v", [2], [("node_id", MetaVal.vStr "n2")]⟩]
    [⟨"g", [3], []⟩] [⟨"t", [4, 5], []⟩] 2
  constructor
  · refine h.2.2.1 ?_ ?_
    · intro d hd
      rw [List.mem_singleton] at hd
      exact hd ▸ ⟨MetaVal.vStr "n1", rfl⟩
    · intro d hd
      rw [List.mem_singleton] at hd
      exact hd ▸ ⟨MetaVal.vStr "n2", rfl⟩
  · rw [(h.2.2.2 (by decide) (by decide)).1]
    rfl

/-- C7: every document emitted by the HybridSearch merge carries a
final score equal to its relevance score annotation passed through
verbatim (0.0 when absent) when it came from dual-level retrieval, and
equal to max(0, 1 - cosineDistance) of its score annotation (0.0 when
absent or not a float) when it came from vector-enhanced retrieval. -/
theorem hybridSearch_final_score (dual vec : List Doc) (topK : Nat) (d : Doc)
    (hd : d ∈ hybridSearchMerge dual vec topK) :
    (metaGet d.meta "search_method" = some (.vStr "dual_level") →
      metaGet d.meta "final_score" =
        some (match metaGet d.meta "relevance_score" with
          | some v => v
          | none => MetaVal.vFloat 0)) ∧
    (metaGet d.meta "search_method" = some (.vStr "vector_enhanced") →
      metaGet d.meta "final_score" =
        some (.vFloat (specVectorSimilarity (metaGet d.meta "score")))) := by
  rw [hybridSearchMerge_spec] at hd
  obtain ⟨it, hit, rfl⟩ := List.mem_map.mp hd
  unfold hybridAnnot
  split
  · constructor
    · intro _
      rw [metaGet_annotateDual_final,
        metaGet_annotateDual_other _ _ "relevance_score"
          (by decide) (by decide) (by decide)]
      rfl
    · intro hcontra
      rw [metaGet_annotateDual_method] at hcontra
      exact absurd hcontra (by decide)
  · constructor
    · intro hcontra
      rw [metaGet_annotateVector_method] at hcontra
      exact absurd hcontra (by decide)
    · intro _
      rw [metaGet_annotateVector_final,
        metaGet_annotateVector_other _ _ "score"
          (by decide) (by decide) (by decide),
        vectorFinalScore_eq_spec]

/-- C7 witness: the theorem applied to the two documents of a concrete
merge (a dual document carrying a relevance score, a vector document
without a score annotation). -/
theorem hybridSearch_final_score_witness :
    metaGet (annotateDualDoc 0
        ⟨"d", [1], [("node_id", MetaVal.vStr "n1"),
          ("relevance_score", MetaVal.vFloat 5)]⟩).meta "final_score" =
      some (MetaVal.vFloat 5) ∧
    metaGet (annotateVectorDoc 1
        ⟨"v", [2], [("node_id", MetaVal.vStr "n2")]⟩).meta "final_score" =
      some (MetaVal.vFloat 0) := by
  have hmerge : hybridSearchMerge
      [⟨"d", [1], [("node_id", MetaVal.vStr "n1"),
        ("relevance_score", MetaVal.vFloat 5)]⟩]
      [⟨"v", [2], [("node_id", MetaVal.vStr "n2")]⟩] 2 =
      [annotateDualDoc 0
        ⟨"d", [1], [("node_id", MetaVal.vStr "n1"),
          ("relevance_score", MetaVal.vFloat 5)]⟩,
       annotateVectorDoc 1
        ⟨"v", [2], [("node_id", MetaVal.vStr "n2")]⟩] := rfl
  have h1 := hybridSearch_final_score
    [⟨"d", [1], [("node_id", MetaVal.vStr "n1"),
      ("relevance_score", MetaVal.vFloat 5)]⟩]
    [⟨"v", [2], [("node_id", MetaVal.vStr "n2")]⟩] 2
    (annotateDualDoc 0
      ⟨"d", [1], [("node_id", MetaVal.vStr "n1"),
        ("relevance_score", MetaVal.vFloat 5)]⟩)
    (by rw [hmerge]; exact List.mem_cons_self _ _)
  have h2 := hybridSearch_final_score
    [⟨"d", [1], [("node_id", MetaVal.vStr "n1"),
      ("relevance_score", MetaVal.vFloat 5)]⟩]
    [⟨"v", [2], [("node_id", MetaVal.vStr "n2")]⟩] 2
    (annotateVectorDoc 1
      ⟨"v", [2], [("node_id", MetaVal.vStr "n2")]⟩)
    (by rw [hmerge]; exact List.mem_cons_of_mem _ (List.mem_cons_self _ _))
  constructor
  · rw [h1.1 rfl]; rfl
  · rw [h2.2 rfl]; rfl

/-- C9: the combined-strategy merge is not total: a document with
empty content makes the content-prefix hashing index the first byte of
an empty string (the none outcome); with every input content
non-empty, the merge always succeeds. -/
theorem combinedMerge_empty_content (topK : Nat) :
    executeCombinedMerge [⟨"g0", [], []⟩] [] 5 = none ∧
    (∀ (g t : List Doc),
      (∀ d ∈ g, d.content ≠ []) → (∀ d ∈ t, d.content ≠ []) →
      (executeCombinedMerge g t topK).isSome = true) := by
  constructor
  · rfl
  · intro g t hg ht
    rw [executeCombinedMerge_spec g t topK hg ht]
    rfl

/-- C9 witness: the totality half applied at a concrete input. -/
theorem combinedMerge_empty_content_witness :
    (executeCombinedMerge [⟨"g", [7], []⟩] [⟨"t", [8, 9], []⟩] 3).isSome = true :=
  (combinedMerge_empty_content 3).2
    [⟨"g", [7], []⟩] [⟨"t", [8, 9], []⟩] (by decide) (by decide)

/-! Intelligent query router dispatch (intelligent_query_router.go
lines 208-331) and the graph-RAG entry point (graph_reterval.go lines
636-642). -/

/-- A Go document slice: none models the nil slice. -/
abbrev GoDocList := Option (List Doc)

/-- The list view of a Go slice (ranging over nil iterates zero
times). -/
def goList (l : GoDocList) : List Doc := l.getD []

/-- A Go error value. -/
abbrev GoErr := String

/-- The two retrieval collaborators the router dispatches to, modelled
as oracles over query and topK: HybridSearch of the traditional module
and GraphRAGSearch of the graph module. -/
structure RouterOracles where
  hybridSearch : String → Nat → GoDocList × Option GoErr
  graphRAGSearch : String → Nat → GoDocList × Option GoErr

/-- Call sites RouteQuery reaches, in order. -/
inductive CallSite where
  | dispatchHybrid
  | dispatchGraph
  | dispatchDefault
  | combinedHybrid
  | combinedGraph
  | fallbackHybrid
  deriving DecidableEq

/-- postProcessResults (lines 334-347): route annotations merged into
every returned document. -/
def postProcessResults (docs : GoDocList) (analysis : QueryAnalysis) :
    GoDocList :=
  docs.map (List.map (fun d =>
    let m := metaSet d.meta "route_strategy"
      (.vStr (strategyStr analysis.recommendedStrategy))
    let m := metaSet m "query_complexity" (.vFloat analysis.queryComplexity)
    let m := metaSet m "route_confidence" (.vFloat analysis.confidence)
    { d with meta := m }))

/-- executeCombinedSearch (lines 260-331): split topK (graphK is a Go
int and may be minus one at topK zero; as it only parameterizes the
oracle call it is modelled with the truncated subtraction), run both
retrievals replacing a failed side by the empty slice, merge
round-robin graph-first keyed on the content hash, truncate to topK;
the hashString panic propagates (outer none), and the returned error
is always nil. -/
def executeCombinedSearch (O : RouterOracles) (q : String) (topK : Nat) :
    Option (GoDocList × Option GoErr × List CallSite) :=
  let traditionalK := if topK / 2 < 1 then 1 else topK / 2
  let graphK := topK - traditionalK
  let tRes := O.hybridSearch q traditionalK
  let traditionalDocs := if (tRes.2).isSome then (some [] : GoDocList) else tRes.1
  let gRes := O.graphRAGSearch q graphK
  let graphDocs := if (gRes.2).isSome then (some [] : GoDocList) else gRes.1
  match combinedMergeLoop (some ([], []))
      (zipPad (goList graphDocs) (goList traditionalDocs)) with
  | none => none
  | some st =>
    let combinedDocs : GoDocList :=
      if st.1.isEmpty then none else some (st.1.take topK)
    some (combinedDocs, none, [CallSite.combinedHybrid, CallSite.combinedGraph])

/-- GraphRAGSearch (graph_reterval.go lines 636-693): with no graph
store connection it returns the empty non-nil list and a nil error;
the connected path is modelled as an oracle. -/
def graphRAGSearch (driver : Option Unit)
    (connected : String → Nat → GoDocList × Option GoErr)
    (q : String) (topK : Nat) : GoDocList × Option GoErr :=
  match driver with
  | none => (some [], none)
  | some _ => connected q topK

/-- The value RouteQuery hands back: documents, analysis, error, and
the retrieval call sites it went through. -/
structure RouteOutcome where
  docs : GoDocList
  analysis : QueryAnalysis
  err : Option GoErr
  calls : List CallSite
  deriving DecidableEq

/-- The tail of RouteQuery after dispatch (lines 246-256): on a
dispatch error fall back once to HybridSearch discarding the fallback
error, post-process, and return a nil error. -/
def finishRoute (O : RouterOracles) (q : String) (topK : Nat)
    (analysis : QueryAnalysis) (docs : GoDocList) (err : Option GoErr)
    (calls : List CallSite) : RouteOutcome :=
  match err with
  | some _ =>
    let fb := O.hybridSearch q topK
    ⟨postProcessResults fb.1 analysis, analysis, none, calls ++ [.fallbackHybrid]⟩
  | none => ⟨postProcessResults docs analysis, analysis, none, calls⟩

/-- RouteQuery (lines 208-257). AnalyzeQuery never fails and returns
the rule-based analysis; the statistics update it performs is modelled
by updateRouteStats and routeStatsAfter. The outer none models the
panic of a combined merge on empty content. -/
def routeQuery (O : RouterOracles) (q : String) (topK : Nat) :
    Option RouteOutcome :=
  let analysis := ruleBasedAnalysis q
  match analysis.recommendedStrategy with
  | .hybridTraditional =>
    let r := O.hybridSearch q topK
    some (finishRoute O q topK analysis r.1 r.2 [.dispatchHybrid])
  | .graphRAG =>
    let r := O.graphRAGSearch q topK
    some (finishRoute O q topK analysis r.1 r.2 [.dispatchGraph])
  | .combined =>
    match executeCombinedSearch O q topK with
    | none => none
    | some (docs, err, calls) =>
      some (finishRoute O q topK analysis docs err calls)
  | .other _ =>
    let r := O.hybridSearch q topK
    some (finishRoute O q topK analysis r.1 r.2 [.dispatchDefault])

/-- Whether the dispatch call of the selected strategy errors. -/
def dispatchErrored (O : RouterOracles) (q : String) (topK : Nat) : Bool :=
  match (ruleBasedAnalysis q).recommendedStrategy with
  | .hybridTraditional => (O.hybridSearch q topK).2.isSome
  | .graphRAG => (O.graphRAGSearch q topK).2.isSome
  | .combined => false
  | .other _ => (O.hybridSearch q topK).2.isSome

lemma qGraph_strategy :
    (ruleBasedAnalysis "为什么如何关系影响原因").recommendedStrategy =
      SearchStrategy.graphRAG := by
  have h1 : countContained "为什么如何关系影响原因" complexityKeywords = 5 := by
    decide
  unfold ruleBasedAnalysis
  dsimp only
  rw [h1, if_pos (Or.inl (by norm_num [complexityKeywords]))]

lemma qPlain_strategy :
    (ruleBasedAnalysis "abc").recommendedStrategy =
      SearchStrategy.hybridTraditional := by
  have h1 : countContained "abc" complexityKeywords = 0 := by decide
  have h2 : countContained "abc" relationKeywords = 0 := by decide
  unfold ruleBasedAnalysis
  dsimp only
  rw [h1, h2,
    if_neg (by push_neg; constructor <;> norm_num [complexityKeywords, relationKeywords]),
    if_neg (by push_neg; constructor <;> norm_num [complexityKeywords, relationKeywords])]

/-- Oracles in which every retrieval call fails. -/
def failingOracles : RouterOracles :=
  ⟨fun _ _ => (none, some "hybrid failed"), fun _ _ => (none, some "graph failed")⟩

/-- C3 counterexample: with the graph dispatch failing and the
fallback HybridSearch failing too, RouteQuery returns a nil error (the
fallback error is discarded by the blank assignment), so no error is
ever surfaced to the caller. -/
theorem routeQuery_error_swallowed_cx :
    routeQuery failingOracles "为什么如何关系影响原因" 5 =
      some ⟨none, ruleBasedAnalysis "为什么如何关系影响原因", none,
        [CallSite.dispatchGraph, CallSite.fallbackHybrid]⟩ := by
  unfold routeQuery
  dsimp only
  rw [qGraph_strategy]
  rfl

lemma executeCombinedSearch_shape (O : RouterOracles) (q : String) (topK : Nat) :
    executeCombinedSearch O q topK = none ∨
    ∃ docs, executeCombinedSearch O q topK =
      some (docs, none, [CallSite.combinedHybrid, CallSite.combinedGraph]) := by
  unfold executeCombinedSearch
  dsimp only
  split
  · exact Or.inl rfl
  · exact Or.inr ⟨_, rfl⟩

/-- C3 amended: whenever RouteQuery returns (it panics only through
the combined merge on empty content), the returned error is nil — a
dispatch failure triggers exactly one fallback call to HybridSearch
and even a failure of that fallback is discarded, never surfaced. -/
theorem routeQuery_fallback_amended (O : RouterOracles) (q : String)
    (topK : Nat) (res : RouteOutcome)
    (h : routeQuery O q topK = some res) :
    res.err = none ∧
    res.analysis = ruleBasedAnalysis q ∧
    (dispatchErrored O q topK = true →
      res.calls.count CallSite.fallbackHybrid = 1) ∧
    (dispatchErrored O q topK = false →
      res.calls.count CallSite.fallbackHybrid = 0) := by
  unfold routeQuery at h
  dsimp only at h
  unfold dispatchErrored
  rcases hstrat : (ruleBasedAnalysis q).recommendedStrategy with _ | _ | _ | s <;>
    rw [hstrat] at h <;> dsimp only at h
  · rw [Option.some.injEq] at h
    subst h
    unfold finishRoute
    rcases herr : (O.hybridSearch q topK).2 with _ | e
    · refine ⟨rfl, rfl, fun hcond => ?_, fun _ => ?_⟩
      · dsimp only at hcond
        exact absurd hcond (by decide)
      · dsimp only
        decide
    · refine ⟨rfl, rfl, fun _ => ?_, fun hcond => ?_⟩
      · dsimp only
        decide
      · simp at hcond
  · rw [Option.some.injEq] at h
    subst h
    unfold finishRoute
    rcases herr : (O.graphRAGSearch q topK).2 with _ | e
    · refine ⟨rfl, rfl, fun hcond => ?_, fun _ => ?_⟩
      · dsimp only at hcond
        exact absurd hcond (by decide)
      · dsimp only
        decide
    · refine ⟨rfl, rfl, fun _ => ?_, fun hcond => ?_⟩
      · dsimp only
        decide
      · simp at hcond
  · rcases executeCombinedSearch_shape O q topK with hnone | ⟨docs, heq⟩
    · rw [hnone] at h
      cases h
    · rw [heq, Option.some.injEq] at h
      subst h
      unfold finishRoute
      dsimp only
      refine ⟨rfl, rfl, fun hcond => ?_, fun _ => ?_⟩
      · exact absurd hcond (by decide)
      · decide
  · rw [Option.some.injEq] at h
    subst h
    unfold finishRoute
    rcases herr : (O.hybridSearch q topK).2 with _ | e
    · refine ⟨rfl, rfl, fun hcond => ?_, fun _ => ?_⟩
      · dsimp only at hcond
        exact absurd hcond (by decide)
      · dsimp only
        decide
    · refine ⟨rfl, rfl, fun _ => ?_, fun hcond => ?_⟩
      · dsimp only
        decide
      · simp at hcond

/-- Oracles that always succeed with the empty non-nil list. -/
def okOracles : RouterOracles :=
  ⟨fun _ _ => (some [], none), fun _ _ => (some [], none)⟩

/-- C3 witness: the amended theorem applied to a concrete successful
route and to the concrete double-failure route. -/
theorem routeQuery_fallback_amended_witness :
    ((some ⟨some [], ruleBasedAnalysis "abc", none,
        [CallSite.dispatchHybrid]⟩ : Option RouteOutcome).map RouteOutcome.err =
      some none) ∧
    ([CallSite.dispatchGraph, CallSite.fallbackHybrid].count
        CallSite.fallbackHybrid = 1) := by
  have hroute : routeQuery okOracles "abc" 3 =
      some ⟨some [], ruleBasedAnalysis "abc", none, [CallSite.dispatchHybrid]⟩ := by
    unfold routeQuery
    dsimp only
    rw [qPlain_strategy]
    rfl
  have h1 := routeQuery_fallback_amended okOracles "abc" 3 _ hroute
  have h2 := routeQuery_fallback_amended failingOracles "为什么如何关系影响原因" 5 _
    routeQuery_error_swallowed_cx
  have hde : dispatchErrored failingOracles "为什么如何关系影响原因" 5 = true := by
    unfold dispatchErrored
    rw [qGraph_strategy]
    rfl
  constructor
  · exact congrArg some h1.1
  · exact h2.2.2.1 hde

/-- Oracles whose graph side is GraphRAGSearch with no driver. -/
def nilDriverConnected : String → Nat → GoDocList × Option GoErr :=
  fun _ _ => (none, some "unreachable")

/-- C5: with no graph-store connection GraphRAGSearch returns the
empty non-nil list and a nil error, and RouteQuery routing the query
to graph retrieval returns the empty non-nil list, the populated
analysis and a nil error. -/
theorem graphRAG_nil_driver (connected : String → Nat → GoDocList × Option GoErr)
    (q : String) (topK : Nat) (O : RouterOracles)
    (hO : O.graphRAGSearch = graphRAGSearch none connected)
    (hstrat : (ruleBasedAnalysis q).recommendedStrategy = .graphRAG) :
    graphRAGSearch none connected q topK = (some [], none) ∧
    routeQuery O q topK =
      some ⟨some [], ruleBasedAnalysis q, none, [CallSite.dispatchGraph]⟩ := by
  refine ⟨rfl, ?_⟩
  unfold routeQuery
  dsimp only
  rw [hstrat, hO]
  rfl

/-- C5 witness: the theorem at a concrete graph-routed query. -/
theorem graphRAG_nil_driver_witness :
    routeQuery ⟨fun _ _ => (none, none), graphRAGSearch none nilDriverConnected⟩
        "为什么如何关系影响原因" 5 =
      some ⟨some [], ruleBasedAnalysis "为什么如何关系影响原因", none,
        [CallSite.dispatchGraph]⟩ :=
  (graphRAG_nil_driver nilDriverConnected "为什么如何关系影响原因" 5
    ⟨fun _ _ => (none, none), graphRAGSearch none nilDriverConnected⟩
    rfl qGraph_strategy).2

/-! Graph indexing module: the keyword index, its rebuild and its
readers (intelligent_query_router.go lines 592-1001). -/

/-- EntityKeyValue record. -/
structure EntityKeyValue where
  entityName : String
  indexKeys : List String
  valueContent : String
  entityType : String
  metadata : Meta
  deriving DecidableEq

/-- RelationKeyValue record. -/
structure RelationKeyValue where
  relationID : String
  indexKeys : List String
  valueContent : String
  relationType : String
  sourceEntity : String
  targetEntity : String
  metadata : Meta
  deriving DecidableEq

/-- Generic association lookup (Go map read). -/
def assocGet {α : Type} (m : List (String × α)) (k : String) : Option α :=
  match m with
  | [] => none
  | (k2, v) :: rest => if k2 = k then some v else assocGet rest k

/-- Read of an id-list map: an absent key reads as the nil slice. -/
def idMapGet (m : List (String × List String)) (k : String) : List String :=
  (assocGet m k).getD []

/-- Append one id under a key (Go read-append-store on the map). -/
def idMapAppend (m : List (String × List String)) (k : String) (id1 : String) :
    List (String × List String) :=
  (k, idMapGet m k ++ [id1]) :: m

/-- The key-value stores and key mappings of GraphIndexingModule. The
stores are Go maps: the list order models one map iteration order, and
two executions ranging over the same maps are related by a permutation
of the entries (Go re-randomizes the order per range). -/
structure GraphIndexingModule where
  entityKVStore : List (String × EntityKeyValue)
  relationKVStore : List (String × RelationKeyValue)
  keyToEntities : List (String × List String)
  keyToRelations : List (String × List String)

/-- rebuildKeyMappings (lines 955-973): clear both mappings and
rebuild them from the two key-value stores alone, ranging over each
store in its (unspecified) map iteration order. -/
def rebuildKeyMappings (g : GraphIndexingModule) : GraphIndexingModule :=
  let ke := g.entityKVStore.foldl
    (fun m p => p.2.indexKeys.foldl (fun m k => idMapAppend m k p.1) m) []
  let kr := g.relationKVStore.foldl
    (fun m p => p.2.indexKeys.foldl (fun m k => idMapAppend m k p.1) m) []
  { g with keyToEntities := ke, keyToRelations := kr }

/-- GetEntitiesByKey (lines 976-987): the mapped ids resolved against
the store, skipping absent ids. -/
def GetEntitiesByKey (g : GraphIndexingModule) (key : String) :
    List EntityKeyValue :=
  (idMapGet g.keyToEntities key).filterMap (fun id1 => assocGet g.entityKVStore id1)

/-- GetRelationsByKey (lines 990-1001). -/
def GetRelationsByKey (g : GraphIndexingModule) (key : String) :
    List RelationKeyValue :=
  (idMapGet g.keyToRelations key).filterMap (fun id1 => assocGet g.relationKVStore id1)

lemma idMapGet_nil (k : String) : idMapGet [] k = [] := rfl

lemma idMapGet_idMapAppend (m : List (String × List String))
    (k2 id1 k : String) :
    idMapGet (idMapAppend m k2 id1) k =
      if k2 = k then idMapGet m k ++ [id1] else idMapGet m k := by
  by_cases h : k2 = k
  · subst h
    simp [idMapAppend, idMapGet, assocGet]
  · simp [idMapAppend, idMapGet, assocGet, h]

/-- The ids one store entry contributes under a key: one copy of its
id per occurrence of the key among its index keys. -/
def keyContrib (k id1 : String) (ks : List String) : List String :=
  (ks.filter (fun k2 => k2 == k)).map (fun _ => id1)

lemma innerFold_get (id1 k : String) (ks : List String) :
    ∀ m, idMapGet (ks.foldl (fun m k2 => idMapAppend m k2 id1) m) k =
      idMapGet m k ++ keyContrib k id1 ks := by
  induction ks with
  | nil => intro m; simp [keyContrib]
  | cons k2 ks ih =>
    intro m
    simp only [List.foldl_cons]
    rw [ih, idMapGet_idMapAppend]
    by_cases h : k2 = k
    · simp [keyContrib, h, List.filter_cons]
    · simp [keyContrib, h, List.filter_cons]

/-- What one rebuilt mapping holds under a key: the concatenation, in
store iteration order, of each entry's contribution. -/
lemma outerFold_get {α : Type} (keysOf : α → List String) (k : String)
    (s : List (String × α)) :
    ∀ m0, idMapGet
        (s.foldl (fun m p => (keysOf p.2).foldl (fun m k2 => idMapAppend m k2 p.1) m)
          m0) k =
      idMapGet m0 k ++ s.flatMap (fun p => keyContrib k p.1 (keysOf p.2)) := by
  induction s with
  | nil => intro m0; simp
  | cons p s ih =>
    intro m0
    simp only [List.foldl_cons, List.flatMap_cons]
    rw [ih, innerFold_get, List.append_assoc]

/-- One entity record shared under one index key, for the
iteration-order counterexample. -/
def kvShared : EntityKeyValue := ⟨"A", ["k"], "", "Ingredient", []⟩

/-- The same two-entry entity store seen in one map iteration order. -/
def gOrderA : GraphIndexingModule :=
  ⟨[("e1", kvShared), ("e2", kvShared)], [], [], []⟩

/-- The same store seen in the opposite iteration order. -/
def gOrderB : GraphIndexingModule :=
  ⟨[("e2", kvShared), ("e1", kvShared)], [], [], []⟩

/-- C8 counterexample: two rebuilds range over the same stores in
different (both legitimate) Go map iteration orders and produce
differently ordered id lists under the shared key, so the per-key id
lists of two rebuilds need not be identical. -/
theorem rebuildKeyMappings_order_cx :
    gOrderA.entityKVStore.Perm gOrderB.entityKVStore ∧
    gOrderA.relationKVStore.Perm gOrderB.relationKVStore ∧
    idMapGet (rebuildKeyMappings gOrderA).keyToEntities "k" = ["e1", "e2"] ∧
    idMapGet (rebuildKeyMappings gOrderB).keyToEntities "k" = ["e2", "e1"] ∧
    idMapGet (rebuildKeyMappings gOrderA).keyToEntities "k" ≠
      idMapGet (rebuildKeyMappings gOrderB).keyToEntities "k" := by
  refine ⟨by decide, by decide, rfl, rfl, by decide⟩

/-- C8 amended: a rebuild leaves the two stores untouched, and
rebuilding twice from the same stores yields the same key-to-id
mappings up to per-key order: whatever iteration orders the two
rebuilds see for the same entity and relation maps, for every index
key the two entity-id lists are permutations of each other, and so are
the two relation-id lists (identical as multisets, not necessarily as
lists, since Go re-randomizes map iteration per range). -/
theorem rebuildKeyMappings_perm (g1 g2 : GraphIndexingModule) (key : String)
    (he : g1.entityKVStore.Perm g2.entityKVStore)
    (hr : g1.relationKVStore.Perm g2.relationKVStore) :
    (rebuildKeyMappings g1).entityKVStore = g1.entityKVStore ∧
    (rebuildKeyMappings g1).relationKVStore = g1.relationKVStore ∧
    (idMapGet (rebuildKeyMappings g1).keyToEntities key).Perm
      (idMapGet (rebuildKeyMappings g2).keyToEntities key) ∧
    (idMapGet (rebuildKeyMappings g1).keyToRelations key).Perm
      (idMapGet (rebuildKeyMappings g2).keyToRelations key) := by
  refine ⟨rfl, rfl, ?_, ?_⟩
  · unfold rebuildKeyMappings
    dsimp only
    rw [outerFold_get EntityKeyValue.indexKeys key g1.entityKVStore [],
      outerFold_get EntityKeyValue.indexKeys key g2.entityKVStore [],
      idMapGet_nil, List.nil_append, List.nil_append]
    exact he.flatMap_right _
  · unfold rebuildKeyMappings
    dsimp only
    rw [outerFold_get RelationKeyValue.indexKeys key g1.relationKVStore [],
      outerFold_get RelationKeyValue.indexKeys key g2.relationKVStore [],
      idMapGet_nil, List.nil_append, List.nil_append]
    exact hr.flatMap_right _

/-- C8 witness: the amended theorem applied to the two concrete
iteration orders of the shared-key store. -/
theorem rebuildKeyMappings_perm_witness :
    (idMapGet (rebuildKeyMappings gOrderA).keyToEntities "k").Perm
      (idMapGet (rebuildKeyMappings gOrderB).keyToEntities "k") :=
  (rebuildKeyMappings_perm gOrderA gOrderB "k" (by decide) (by decide)).2.2.1

/-! VectorSearchEnhanced (hybrid_retrieval.go lines 753-816) with its
neighbor prefix slice. -/

/-- A cached entity of the hybrid module (buildGraphIndex), content as
raw bytes. -/
structure CacheEntry where
  content : List Nat
  nodeType : String
  metadata : Meta
  deriving DecidableEq

/-- Go strings.ToLower on a byte: ASCII lowering; CJK bytes are
continuation or lead bytes, unaffected. -/
def byteToLower (b : Nat) : Nat := if 65 ≤ b ∧ b ≤ 90 then b + 32 else b

/-- Lowered byte string. -/
def lowerBytes (s : List Nat) : List Nat := s.map byteToLower

/-- Whether sub occurs at the head of s, on bytes. -/
def leadsWithB : List Nat → List Nat → Bool
  | [], _ => true
  | _ :: _, [] => false
  | a :: as, b :: bs => a == b && leadsWithB as bs

/-- Whether sub occurs anywhere in s, on bytes. -/
def hasSubListB (sub : List Nat) : List Nat → Bool
  | [] => sub.isEmpty
  | c :: rest => leadsWithB sub (c :: rest) || hasSubListB sub rest

/-- UTF-8 bytes of the related-info label prefix: a newline, the four
related-information characters, a full-width colon rendered as colon
and space. -/
def relatedInfoSep : List Nat :=
  [10, 231, 155, 184, 229, 133, 179, 228, 191, 161, 230, 129, 175, 58, 32]

/-- Go strings.Join with the comma-space separator. -/
def joinComma : List (List Nat) → List Nat
  | [] => []
  | x :: rest => rest.foldl (fun acc y => acc ++ [44, 32] ++ y) x

/-- RetrievalResult record of the mock vector loop. -/
structure RetrievalResult where
  content : List Nat
  nodeID : String
  nodeType : String
  relevanceScore : ℚ
  retrievalLevel : String
  metadata : Meta
  deriving DecidableEq

/-- The loop of VectorSearchEnhanced over the entity cache: a matched
entity is enhanced with the joined first three neighbor names. The Go
slice neighbors[:3] requires capacity at least 3; the list grows from
nil by append, so its capacity equals its length below three and the
slice panics (none) on one or two neighbors. The loop breaks once topK
results are collected. -/
def vseLoop (nb : String → List (List Nat)) (queryLower : List Nat) (topK : Nat)
    (acc : List RetrievalResult) :
    List (String × CacheEntry) → Option (List RetrievalResult)
  | [] => some acc
  | (nodeID, e) :: rest =>
    if hasSubListB queryLower (lowerBytes e.content) then
      let neighbors := nb nodeID
      match (if neighbors.length > 0 then
               (if 3 ≤ neighbors.length then
                 some (e.content ++ relatedInfoSep ++ joinComma (neighbors.take 3))
                else none)
             else some e.content) with
      | none => none
      | some content =>
        let acc2 := acc ++ [⟨content, nodeID, e.nodeType, 0.8, "vector", e.metadata⟩]
        if topK ≤ acc2.length then some acc2
        else vseLoop nb queryLower topK acc2 rest
    else vseLoop nb queryLower topK acc rest

/-- The document conversion of VectorSearchEnhanced results. -/
def vseToDoc (r : RetrievalResult) : Doc :=
  let recipeName :=
    match metaGet r.metadata "name" with
    | some (.vStr s) => s
    | _ => "未知菜品"
  let m := r.metadata
  let m := metaSet m "recipe_name" (.vStr recipeName)
  let m := metaSet m "score" (.vFloat r.relevanceScore)
  let m := metaSet m "search_type" (.vStr "vector_enhanced")
  ⟨"", r.content, m⟩

/-- VectorSearchEnhanced: the cache is a Go map, so the list order
models one iteration order; quantifying over permutations models the
unspecified map order. -/
def vectorSearchEnhanced (entityCache : List (String × CacheEntry))
    (nb : String → List (List Nat)) (query : List Nat) (topK : Nat) :
    Option (List Doc) :=
  (vseLoop nb (lowerBytes query) topK [] entityCache).map (List.map vseToDoc)

/-- Whether an entity matches the query in VectorSearchEnhanced. -/
def vseMatched (query : List Nat) (e : CacheEntry) : Bool :=
  hasSubListB (lowerBytes query) (lowerBytes e.content)

lemma vseLoop_total (nb : String → List (List Nat)) (queryLower : List Nat)
    (topK : Nat) (cache : List (String × CacheEntry)) :
    ∀ (acc : List RetrievalResult),
      (∀ p ∈ cache, hasSubListB queryLower (lowerBytes p.2.content) = true →
        (nb p.1).length = 0 ∨ 3 ≤ (nb p.1).length) →
      (vseLoop nb queryLower topK acc cache).isSome = true := by
  induction cache with
  | nil => intro acc _; rfl
  | cons p rest ih =>
    intro acc hp
    obtain ⟨nodeID, e⟩ := p
    have hrest : ∀ q ∈ rest, hasSubListB queryLower (lowerBytes q.2.content) = true →
        (nb q.1).length = 0 ∨ 3 ≤ (nb q.1).length :=
      fun q hq => hp q (List.mem_cons_of_mem _ hq)
    simp only [vseLoop]
    cases hm : hasSubListB queryLower (lowerBytes e.content)
    · rw [if_neg (by simp [hm])]
      exact ih acc hrest
    · rw [if_pos (by simp [hm])]
      rcases hp (nodeID, e) (List.mem_cons_self _ _) hm with h0 | h3
      · have h0 : (nb nodeID).length = 0 := h0
        rw [if_neg (by omega)]
        dsimp only
        split
        · rfl
        · exact ih _ hrest
      · have h3 : 3 ≤ (nb nodeID).length := h3
        rw [if_pos (by omega), if_pos h3]
        dsimp only
        split
        · rfl
        · exact ih _ hrest

/-- C10: the vector-enhanced search is partial exactly around the
three-element neighbor slice: it fails on a matched entity with one or
two neighbors; it succeeds under every iteration order when every
matched entity has zero or at least three neighbors; and whenever some
matched entity has one or two neighbors, some iteration order of the
cache map makes it fail. -/
theorem vectorSearchEnhanced_slice :
    vectorSearchEnhanced [("n1", ⟨[97], "T", []⟩)] (fun _ => [[98]]) [97] 5 =
      none ∧
    (∀ (cache : List (String × CacheEntry)) (nb : String → List (List Nat))
        (query : List Nat) (topK : Nat),
      (∀ p ∈ cache, vseMatched query p.2 = true →
        (nb p.1).length = 0 ∨ 3 ≤ (nb p.1).length) →
      (vectorSearchEnhanced cache nb query topK).isSome = true) ∧
    (∀ (cache : List (String × CacheEntry)) (nb : String → List (List Nat))
        (query : List Nat) (topK : Nat) (id1 : String) (e : CacheEntry),
      (id1, e) ∈ cache → vseMatched query e = true →
      1 ≤ (nb id1).length → (nb id1).length < 3 →
      ∃ cache2 : List (String × CacheEntry), cache2.Perm cache ∧
        vectorSearchEnhanced cache2 nb query topK = none) := by
  refine ⟨rfl, ?_, ?_⟩
  · intro cache nb query topK hp
    unfold vectorSearchEnhanced
    have htot := vseLoop_total nb (lowerBytes query) topK cache [] hp
    rcases Option.isSome_iff_exists.mp htot with ⟨v, hv⟩
    rw [hv]
    rfl
  · intro cache nb query topK id1 e hmem hmatch hlen1 hlen3
    refine ⟨(id1, e) :: @List.erase (String × CacheEntry) instBEqOfDecidableEq cache (id1, e),
      (List.perm_cons_erase hmem).symm, ?_⟩
    unfold vectorSearchEnhanced
    simp only [vseLoop]
    unfold vseMatched at hmatch
    rw [if_pos (by simp [hmatch]), if_pos (by omega), if_neg (by omega)]
    rfl

/-- C10 witness: the totality half at a concrete cache whose only
entity has no neighbors, and the failing-order half at a concrete
two-entity cache. -/
theorem vectorSearchEnhanced_slice_witness :
    (vectorSearchEnhanced [("n1", ⟨[97], "T", []⟩)] (fun _ => []) [97] 5).isSome =
      true ∧
    ∃ cache2 : List (String × CacheEntry),
      cache2.Perm [("n0", ⟨[98], "T", []⟩), ("n1", ⟨[97], "T", []⟩)] ∧
      vectorSearchEnhanced cache2 (fun _ => [[99]]) [97] 5 = none := by
  constructor
  · refine vectorSearchEnhanced_slice.2.1
      [("n1", ⟨[97], "T", []⟩)] (fun _ => []) [97] 5 ?_
    intro p hp _
    exact Or.inl rfl
  · refine vectorSearchEnhanced_slice.2.2
      [("n0", ⟨[98], "T", []⟩), ("n1", ⟨[97], "T", []⟩)] (fun _ => [[99]]) [97] 5
      "n1" ⟨[97], "T", []⟩ ?_ (by decide) (by decide) (by decide)
    exact List.mem_cons_of_mem _ (List.mem_cons_self _ _)

end EinoRag
